import Mathlib

/-!
# Mufi-Lang VM — shallow embedding of `src/vm.c` and `src/vm.h`

A faithful Lean model of the stack-based bytecode virtual machine in
`src/vm.c`: the value model, the operand stack, the globals table, the
fetch-decode-execute loop (`run`), the `BINARY_OP` /
`BINARY_OP_COMPARISON` macros, and the runtime-error reporter
(`runtimeError` + `resetStack`).

Modelling conventions:
* Machine integers (`int` payloads of `Value`) are modelled as unbounded
  `Int`; signed overflow is undefined behaviour in the C source and no
  claim exercises it.  C integer division truncates toward zero, which is
  `Int.div`; division by zero is undefined behaviour in C (the model's
  `Int.div _ 0 = 0` is never relied upon).
* IEEE-754 `double` payloads are modelled as exact rationals (`Rat`).
  Every claim about doubles concerns only variant tags and error dispatch,
  never rounding.
* Operations that are undefined behaviour in the C source — reading a
  byte past the end of the code array, popping/peeking an empty stack,
  a constant-pool index out of range, `AS_STRING` on a non-string
  constant — are modelled as `none` (no defined result).
* The stack has a fixed capacity of 256 in C with unchecked overflow
  (undefined behaviour past the edge, spec §7); the model uses an
  unbounded list, and no claim pushes past the capacity.
* The hash table backing globals (`table.c`, external collaborator) is
  modelled as an association list with `get` / `set-or-insert reporting
  newness` / `delete`, the exact interface `vm.c` consumes.
-/

/-- The VM's tagged value union (`value.h`): Nil, Bool, Int, Double, and
heap object (currently only interned strings, modelled by content). -/
inductive Value where
  | vnil    : Value
  | vbool   : Bool → Value
  | vint    : Int → Value
  | vdouble : Rat → Value
  | vstr    : String → Value
deriving DecidableEq, Repr

/-- `IS_NIL`. -/
def Value.isNil : Value → Bool
  | .vnil => true
  | _ => false

/-- `IS_BOOL`. -/
def Value.isBool : Value → Bool
  | .vbool _ => true
  | _ => false

/-- `IS_INT`. -/
def Value.isInt : Value → Bool
  | .vint _ => true
  | _ => false

/-- `IS_DOUBLE`. -/
def Value.isDouble : Value → Bool
  | .vdouble _ => true
  | _ => false

/-- `IS_STRING`. -/
def Value.isString : Value → Bool
  | .vstr _ => true
  | _ => false

/-- `AS_BOOL`: reads the union's `boolean` member.  On a non-Bool variant
the C read is unspecified (type-punning the union); the model fixes that
junk read to `false`.  Every claim states comparisons in terms of this
function, so the junk choice is visible, not hidden. -/
def Value.asBool : Value → Bool
  | .vbool b => b
  | _ => false

/-- `AS_INT`; junk `0` models the unspecified union read on a non-Int
variant (never reached behind an `IS_INT` guard). -/
def Value.asInt : Value → Int
  | .vint n => n
  | _ => 0

/-- `AS_DOUBLE`; junk `0` models the unspecified union read on a
non-Double variant (never reached behind an `IS_DOUBLE` guard). -/
def Value.asDouble : Value → Rat
  | .vdouble x => x
  | _ => 0

/-- `isFalsey` (vm.c:62-64): Nil and Bool(false) are falsey, everything
else is truthy. -/
def isFalsey (value : Value) : Bool :=
  value.isNil || (value.isBool && !value.asBool)

/-- Modelled from the spec: `valuesEqual` lives in `value.c`, which is not
among the provided sources.  §4.2: two values are equal iff they have the
same variant and the same payload; strings compare by content. -/
def valuesEqual (a b : Value) : Bool :=
  decide (a = b)

/-- C `>` on `bool` operands (bools promote to `int` 0/1). -/
def boolGt (a b : Bool) : Bool := a && !b

/-- C `<` on `bool` operands (bools promote to `int` 0/1). -/
def boolLt (a b : Bool) : Bool := !a && b

/-- The globals table interface consumed by `vm.c` (spec §6), modelled as
an association list. -/
abbrev Globals := List (String × Value)

/-- `tableGet`: look a name up. -/
def tableGet : Globals → String → Option Value
  | [], _ => none
  | (k, v) :: rest, name => if k = name then some v else tableGet rest name

/-- `tableSet`: set-or-insert; returns the new table and whether the key
was newly created (the C function's `bool` result). -/
def tableSet : Globals → String → Value → Globals × Bool
  | [], name, v => ([(name, v)], true)
  | (k, w) :: rest, name, v =>
    if k = name then ((name, v) :: rest, false)
    else
      let r := tableSet rest name v
      ((k, w) :: r.1, r.2)

/-- `tableDelete`: remove a binding. -/
def tableDelete : Globals → String → Globals
  | [], _ => []
  | (k, w) :: rest, name =>
    if k = name then rest else (k, w) :: tableDelete rest name

/-- A bytecode unit (`chunk.h`): instruction stream, constant pool, and a
per-byte-offset line table. -/
structure Chunk where
  code : List Nat
  constants : List Value
  lines : List Int
deriving DecidableEq, Repr

/-- The opcodes dispatched by `run`'s switch (`chunk.h`'s `OpCode`). -/
inductive Op where
  | opConstant | opNil | opTrue | opFalse | opPop
  | opGetGlobal | opDefineGlobal | opSetGlobal
  | opEqual | opGreater | opLess
  | opAdd | opSubtract | opMultiply | opDivide
  | opNot | opNegate | opPrint | opReturn
deriving DecidableEq, Repr

/-- The byte encoding of opcodes.  `chunk.h` is not among the provided
sources; the mapping follows the dispatch order of `run`'s switch.  No
claim depends on the particular numbers, only on the fact that bytes
outside the opcode set decode to nothing (the switch has no default
case). -/
def decodeOp : Nat → Option Op
  | 0 => some .opConstant
  | 1 => some .opNil
  | 2 => some .opTrue
  | 3 => some .opFalse
  | 4 => some .opPop
  | 5 => some .opGetGlobal
  | 6 => some .opDefineGlobal
  | 7 => some .opSetGlobal
  | 8 => some .opEqual
  | 9 => some .opGreater
  | 10 => some .opLess
  | 11 => some .opAdd
  | 12 => some .opSubtract
  | 13 => some .opMultiply
  | 14 => some .opDivide
  | 15 => some .opNot
  | 16 => some .opNegate
  | 17 => some .opPrint
  | 18 => some .opReturn
  | _ => none

/-- The VM state touched by one interpretation (`vm.h`): the borrowed
chunk, the instruction cursor (an offset into `code`), the operand stack
(head = top), the globals table, and the accumulated `PRINT` output
(stdout, as printed values). -/
structure VMState where
  chunk : Chunk
  ip : Nat
  stack : List Value
  globals : Globals
  output : List Value
deriving DecidableEq, Repr

/-- Result of executing one instruction: continue, return successfully
(`OP_RETURN` → `INTERPRET_OK`), or raise a runtime error carrying the
post-`resetStack` state, the reported source line and the diagnostic
message (`INTERPRET_RUNTIME_ERROR`). -/
inductive StepResult where
  | ok : VMState → StepResult
  | done : VMState → StepResult
  | err : VMState → Int → String → StepResult
deriving DecidableEq, Repr

/-- `runtimeError` (vm.c:19-30): report the message, resolve the line as
`lines[ip - 1]` (the offset of the last byte consumed), and reset the
stack to empty. -/
def runtimeError (s : VMState) (msg : String) : StepResult :=
  .err { s with stack := [] } (s.chunk.lines.getD (s.ip - 1) 0) msg

/-- `READ_BYTE`: fetch the byte at the cursor and advance; reading past
the end of the code array is undefined behaviour. -/
def readByte (s : VMState) : Option (Nat × VMState) :=
  match s.chunk.code.get? s.ip with
  | some b => some (b, { s with ip := s.ip + 1 })
  | none => none

/-- `READ_CONSTANT`: read one operand byte and index the constant pool;
an out-of-range index is undefined behaviour. -/
def readConstant (s : VMState) : Option (Value × VMState) :=
  match readByte s with
  | some (b, s') =>
    match s'.chunk.constants.get? b with
    | some v => some (v, s')
    | none => none
  | none => none

/-- `READ_STRING`: `AS_STRING(READ_CONSTANT())`; `AS_STRING` of a
non-string constant is undefined behaviour. -/
def readString (s : VMState) : Option (String × VMState) :=
  match readConstant s with
  | some (.vstr name, s') => some (name, s')
  | some (_, _) => none
  | none => none

/-- The `BINARY_OP` macro (vm.c:84-99): both operands `Int` → `Int`
result, both `Double` → `Double` result, anything else → runtime error
"Operands must be either both integer or both double numbers.".  The
top of stack (`peek(0)`) is the right operand `b`. -/
def binaryOp (s : VMState) (iop : Int → Int → Int) (dop : Rat → Rat → Rat) :
    Option StepResult :=
  match s.stack with
  | b :: a :: rest =>
    if b.isInt && a.isInt then
      some (.ok { s with stack := .vint (iop a.asInt b.asInt) :: rest })
    else if b.isDouble && a.isDouble then
      some (.ok { s with stack := .vdouble (dop a.asDouble b.asDouble) :: rest })
    else
      some (runtimeError s "Operands must be either both integer or both double numbers.")
  | _ => none

/-- The `BINARY_OP_COMPARISON` macro (vm.c:100-105): pop `b` then `a`,
read both through `AS_BOOL`, push the boolean comparison.  No type check,
no error path. -/
def binaryOpComparison (s : VMState) (cmp : Bool → Bool → Bool) :
    Option StepResult :=
  match s.stack with
  | b :: a :: rest =>
    some (.ok { s with stack := .vbool (cmp a.asBool b.asBool) :: rest })
  | _ => none

/-- `concatenate` (vm.c:66-77): pop `b` then `a`, push the string
`a ++ b` (interning is identity-tracking only and is out of this model's
scope; strings are modelled by content). -/
def concatenate (s : VMState) : Option StepResult :=
  match s.stack with
  | .vstr sb :: .vstr sa :: rest =>
    some (.ok { s with stack := .vstr (sa ++ sb) :: rest })
  | _ => none

/-- One opcode's execution, mirroring `run`'s switch (vm.c:118-197).  The
state's `ip` already points past the opcode byte (the switch header's
`READ_BYTE`). -/
def execOp (op : Op) (s : VMState) : Option StepResult :=
  match op with
  | .opConstant =>
    match readConstant s with
    | some (v, s') => some (.ok { s' with stack := v :: s'.stack })
    | none => none
  | .opNil => some (.ok { s with stack := .vnil :: s.stack })
  | .opTrue => some (.ok { s with stack := .vbool true :: s.stack })
  | .opFalse => some (.ok { s with stack := .vbool false :: s.stack })
  | .opPop =>
    match s.stack with
    | _ :: rest => some (.ok { s with stack := rest })
    | [] => none
  | .opGetGlobal =>
    match readString s with
    | some (name, s') =>
      match tableGet s'.globals name with
      | none => some (runtimeError s' ("Undefined variable '" ++ name ++ "'."))
      | some v => some (.ok { s' with stack := v :: s'.stack })
    | none => none
  | .opDefineGlobal =>
    match readString s with
    | some (name, s') =>
      match s'.stack with
      | v :: rest =>
        some (.ok { s' with globals := (tableSet s'.globals name v).1, stack := rest })
      | [] => none
    | none => none
  | .opSetGlobal =>
    match readString s with
    | some (name, s') =>
      match s'.stack with
      | v :: _ =>
        let r := tableSet s'.globals name v
        if r.2 then
          some (runtimeError { s' with globals := tableDelete r.1 name }
            ("Undefined variable '" ++ name ++ "'."))
        else
          some (.ok { s' with globals := r.1 })
      | [] => none
    | none => none
  | .opEqual =>
    match s.stack with
    | b :: a :: rest =>
      some (.ok { s with stack := .vbool (valuesEqual a b) :: rest })
    | _ => none
  | .opGreater => binaryOpComparison s boolGt
  | .opLess => binaryOpComparison s boolLt
  | .opAdd =>
    match s.stack with
    | b :: a :: _ =>
      if b.isString && a.isString then concatenate s
      else binaryOp s (· + ·) (· + ·)
    | _ => none
  | .opSubtract => binaryOp s (· - ·) (· - ·)
  | .opMultiply => binaryOp s (· * ·) (· * ·)
  | .opDivide => binaryOp s Int.tdiv (· / ·)
  | .opNot =>
    match s.stack with
    | v :: rest => some (.ok { s with stack := .vbool (isFalsey v) :: rest })
    | [] => none
  | .opNegate =>
    match s.stack with
    | v :: rest =>
      if !v.isInt || !v.isDouble then
        some (runtimeError s "Operand must be a number (int/double).")
      else if v.isInt then
        some (.ok { s with stack := .vint (-v.asInt) :: rest })
      else
        some (.ok { s with stack := .vdouble (-v.asDouble) :: rest })
    | [] => none
  | .opPrint =>
    match s.stack with
    | v :: rest => some (.ok { s with stack := rest, output := s.output ++ [v] })
    | [] => none
  | .opReturn => some (.done s)

/-- One iteration of the fetch-decode-execute loop: fetch the opcode byte
and advance the cursor; a byte matching no case of the switch falls
through silently and the loop continues at the next byte (the switch has
no default case). -/
def step (s : VMState) : Option StepResult :=
  match s.chunk.code.get? s.ip with
  | none => none
  | some b =>
    match decodeOp b with
    | none => some (.ok { s with ip := s.ip + 1 })
    | some op => execOp op { s with ip := s.ip + 1 }

/-- Outcome of `run` (vm.c:80-204): `INTERPRET_OK` with the final state,
or `INTERPRET_RUNTIME_ERROR` with the reported line and message. -/
inductive RunResult where
  | ok : VMState → RunResult
  | rtErr : VMState → Int → String → RunResult
deriving DecidableEq, Repr

/-- The `run` loop, fuel-bounded: iterate `step` until `OP_RETURN`
(success) or a runtime error (immediate abort, no resumption). -/
def runVM : Nat → VMState → Option RunResult
  | 0, _ => none
  | fuel + 1, s =>
    match step s with
    | none => none
    | some (.done s') => some (.ok s')
    | some (.err s' line msg) => some (.rtErr s' line msg)
    | some (.ok s') => runVM fuel s'

/-! ## Globals-table lemmas -/

/-- `tableSet` leaves the key bound to the new value. -/
theorem tableGet_tableSet_self (t : Globals) (k : String) (v : Value) :
    tableGet (tableSet t k v).1 k = some v := by
  induction t with
  | nil => simp [tableSet, tableGet]
  | cons hd rest ih =>
    obtain ⟨k', w⟩ := hd
    by_cases hk : k' = k <;> simp [tableSet, tableGet, hk, ih]

/-- `tableSet` reports a new key exactly when the key was unbound. -/
theorem tableSet_wasNew_iff (t : Globals) (k : String) (v : Value) :
    (tableSet t k v).2 = true ↔ tableGet t k = none := by
  induction t with
  | nil => simp [tableSet, tableGet]
  | cons hd rest ih =>
    obtain ⟨k', w⟩ := hd
    by_cases hk : k' = k <;> simp [tableSet, tableGet, hk, ih]

/-- Inserting a fresh key and deleting it restores the table. -/
theorem tableDelete_tableSet_of_none (t : Globals) (k : String) (v : Value)
    (h : tableGet t k = none) : tableDelete (tableSet t k v).1 k = t := by
  induction t with
  | nil => simp [tableSet, tableDelete]
  | cons hd rest ih =>
    obtain ⟨k', w⟩ := hd
    by_cases hk : k' = k
    · simp [tableGet, hk] at h
    · simp [tableGet, hk] at h
      simp [tableSet, tableDelete, hk, ih h]

/-! ## Claim theorems -/

/-- C1: `OP_NEGATE`'s guard (vm.c:178) is `!IS_INT(peek(0)) ||
!IS_DOUBLE(peek(0))`, which no value can escape, so negating `Int(3)`
raises the TypeMismatch runtime error instead of pushing `Int(-3)`.  This
evaluates the embedded code at the failing input. -/
theorem negate_int_operand_faults :
    step ⟨⟨[16], [], [7]⟩, 0, [.vint 3], [], []⟩ =
      some (.err ⟨⟨[16], [], [7]⟩, 1, [], [], []⟩ 7
        "Operand must be a number (int/double).") := by
  decide

/-- C5: `OP_GREATER` and `OP_LESS` pop `b` then `a` and push the C
comparison of `AS_BOOL(a)` with `AS_BOOL(b)` — the operands are compared
as boolean values, never as numbers, and no runtime error is possible. -/
theorem comparison_ops_compare_as_bools (a b : Value) (c : Chunk) (ip : Nat)
    (rest : List Value) (g : Globals) (out : List Value) :
    execOp .opGreater ⟨c, ip, b :: a :: rest, g, out⟩ =
      some (.ok ⟨c, ip, .vbool (boolGt a.asBool b.asBool) :: rest, g, out⟩) ∧
    execOp .opLess ⟨c, ip, b :: a :: rest, g, out⟩ =
      some (.ok ⟨c, ip, .vbool (boolLt a.asBool b.asBool) :: rest, g, out⟩) :=
  ⟨rfl, rfl⟩

/-- C7: a value is falsey iff it is `Nil` or `Bool(false)` (so `Int(0)`
and `Double(0.0)` are truthy), and `OP_NOT` pops `v` and pushes
`Bool(isFalsey v)` without any error path. -/
theorem isFalsey_iff_and_not_op (v : Value) (c : Chunk) (ip : Nat)
    (rest : List Value) (g : Globals) (out : List Value) :
    (isFalsey v = true ↔ v = .vnil ∨ v = .vbool false) ∧
    execOp .opNot ⟨c, ip, v :: rest, g, out⟩ =
      some (.ok ⟨c, ip, .vbool (isFalsey v) :: rest, g, out⟩) := by
  refine ⟨?_, rfl⟩
  cases v <;> simp [isFalsey, Value.isNil, Value.isBool, Value.asBool]

/-- C9: a fetched byte that decodes to no opcode hits no case of the
dispatch switch (which has no default), so the loop silently advances to
the next byte: no stack change, no error, no output. -/
theorem unknown_opcode_silently_skipped (c : Chunk) (ip : Nat)
    (stk : List Value) (g : Globals) (out : List Value) (b : Nat)
    (hb : c.code.get? ip = some b) (hdec : decodeOp b = none) :
    step ⟨c, ip, stk, g, out⟩ = some (.ok ⟨c, ip + 1, stk, g, out⟩) := by
  unfold step
  rw [show (⟨c, ip, stk, g, out⟩ : VMState).chunk.code.get? (⟨c, ip, stk, g, out⟩ : VMState).ip = some b from hb]
  simp [hdec]

/-- Witness for C9: byte 99 is no opcode and is skipped. -/
theorem unknown_opcode_silently_skipped_witness :
    step ⟨⟨[99], [], [1]⟩, 0, [.vint 3], [], []⟩ =
      some (.ok ⟨⟨[99], [], [1]⟩, 1, [.vint 3], [], []⟩) :=
  unknown_opcode_silently_skipped ⟨[99], [], [1]⟩ 0 [.vint 3] [] [] 99
    (by decide) (by decide)

/-- C2 counterexample: `GET_GLOBAL` at offset 0 with its operand byte at
offset 1; the line table maps offset 0 (the faulting instruction) to line
1, yet the undefined-variable fault reports line 2 — the line of the
operand byte, because `runtimeError` uses `ip - 1` after both bytes were
consumed. -/
theorem get_global_fault_reports_operand_line :
    step ⟨⟨[5, 0], [.vstr "x"], [1, 2]⟩, 0, [], [], []⟩ =
      some (.err ⟨⟨[5, 0], [.vstr "x"], [1, 2]⟩, 2, [], [], []⟩ 2
        "Undefined variable 'x'.") ∧
    (⟨[5, 0], [.vstr "x"], [1, 2]⟩ : Chunk).lines.getD 0 0 = 1 ∧
    (2 : Int) ≠ 1 := by
  refine ⟨by decide, by decide, by decide⟩

/-- Fetch-decode reduction: with the opcode byte and its decoding known,
one loop iteration is the opcode's execution on the advanced cursor. -/
theorem step_eq_execOp (s : VMState) (b : Nat) (op : Op)
    (hb : s.chunk.code.get? s.ip = some b) (hop : decodeOp b = some op) :
    step s = execOp op { s with ip := s.ip + 1 } := by
  unfold step
  rw [hb]
  simp [hop]

/-- C3: `OP_SET_GLOBAL` on an unbound name undoes the tentative insertion
(`tableSet` then `tableDelete`) and raises UndefinedVariable, so the
globals table after the fault is exactly the original one, with no
binding for the name; on a bound name it updates the binding and leaves
the assigned value on the stack.  The state's cursor already points at
the operand byte. -/
theorem set_global_contract (c : Chunk) (ip idx : Nat) (name : String)
    (v : Value) (rest : List Value) (g : Globals) (out : List Value)
    (hb : c.code.get? ip = some idx)
    (hc : c.constants.get? idx = some (.vstr name)) :
    (tableGet g name = none →
      execOp .opSetGlobal ⟨c, ip, v :: rest, g, out⟩ =
        some (.err ⟨c, ip + 1, [], g, out⟩ (c.lines.getD ip 0)
          ("Undefined variable '" ++ name ++ "'."))) ∧
    (∀ w, tableGet g name = some w →
      ∃ g', execOp .opSetGlobal ⟨c, ip, v :: rest, g, out⟩ =
          some (.ok ⟨c, ip + 1, v :: rest, g', out⟩) ∧
        tableGet g' name = some v) := by
  constructor
  · intro hnone
    have hnew : (tableSet g name v).2 = true := (tableSet_wasNew_iff g name v).mpr hnone
    have hdel : tableDelete (tableSet g name v).1 name = g :=
      tableDelete_tableSet_of_none g name v hnone
    simp only [execOp, readString, readConstant, readByte]
    rw [hb]
    simp only [hc]
    simp [hnew, hdel, runtimeError]
  · intro w hsome
    have hold : (tableSet g name v).2 = false := by
      rcases h2 : (tableSet g name v).2 with _ | _
      · rfl
      · rw [(tableSet_wasNew_iff g name v).mp h2] at hsome; cases hsome
    refine ⟨(tableSet g name v).1, ?_, tableGet_tableSet_self g name v⟩
    simp only [execOp, readString, readConstant, readByte]
    rw [hb]
    simp only [hc]
    simp [hold]

/-- Witness for C3: assigning to the never-defined global `y` faults and
leaves the globals table empty. -/
theorem set_global_contract_witness :
    execOp .opSetGlobal ⟨⟨[7, 0], [.vstr "y"], [3, 4]⟩, 1, [.vint 5], [], []⟩ =
      some (.err ⟨⟨[7, 0], [.vstr "y"], [3, 4]⟩, 2, [], [], []⟩ 4
        "Undefined variable 'y'.") :=
  (set_global_contract ⟨[7, 0], [.vstr "y"], [3, 4]⟩ 1 0 "y" (.vint 5) [] [] []
    (by decide) (by decide)).1 rfl

/-- C4: `BINARY_OP` (used by ADD on non-string pairs, and by SUBTRACT,
MULTIPLY, DIVIDE) accepts exactly same-variant numeric pairs: an
`Int`/`Double` mix in either order raises the TypeMismatch error with the
documented message and never coerces, while `Int`/`Int` produces an `Int`
and `Double`/`Double` a `Double`. -/
theorem numeric_binary_op_typing (op : Op)
    (hop : op = .opAdd ∨ op = .opSubtract ∨ op = .opMultiply ∨ op = .opDivide)
    (a b : Value) (c : Chunk) (ip : Nat) (rest : List Value) (g : Globals)
    (out : List Value) :
    ((a.isInt = true ∧ b.isDouble = true) ∨ (a.isDouble = true ∧ b.isInt = true) →
      execOp op ⟨c, ip, b :: a :: rest, g, out⟩ =
        some (.err ⟨c, ip, [], g, out⟩ (c.lines.getD (ip - 1) 0)
          "Operands must be either both integer or both double numbers.")) ∧
    (∀ m n : Int, a = .vint m → b = .vint n → ∃ r : Int,
      execOp op ⟨c, ip, b :: a :: rest, g, out⟩ =
        some (.ok ⟨c, ip, .vint r :: rest, g, out⟩)) ∧
    (∀ x y : Rat, a = .vdouble x → b = .vdouble y → ∃ r : Rat,
      execOp op ⟨c, ip, b :: a :: rest, g, out⟩ =
        some (.ok ⟨c, ip, .vdouble r :: rest, g, out⟩)) := by
  refine ⟨?_, ?_, ?_⟩
  · rintro (⟨ha, hb⟩ | ⟨ha, hb⟩) <;>
      (cases a <;> simp [Value.isInt, Value.isDouble] at ha) <;>
      (cases b <;> simp [Value.isInt, Value.isDouble] at hb) <;>
      rcases hop with rfl | rfl | rfl | rfl <;>
      simp [execOp, binaryOp, runtimeError, Value.isInt, Value.isDouble,
        Value.isString]
  · rintro m n rfl rfl
    rcases hop with rfl | rfl | rfl | rfl
    · exact ⟨m + n, by simp [execOp, binaryOp, Value.isInt, Value.isString, Value.asInt]⟩
    · exact ⟨m - n, by simp [execOp, binaryOp, Value.isInt, Value.isString, Value.asInt]⟩
    · exact ⟨m * n, by simp [execOp, binaryOp, Value.isInt, Value.isString, Value.asInt]⟩
    · exact ⟨m.tdiv n, by simp [execOp, binaryOp, Value.isInt, Value.isString, Value.asInt]⟩
  · rintro x y rfl rfl
    rcases hop with rfl | rfl | rfl | rfl
    · exact ⟨x + y, by simp [execOp, binaryOp, Value.isInt, Value.isDouble, Value.isString, Value.asDouble]⟩
    · exact ⟨x - y, by simp [execOp, binaryOp, Value.isInt, Value.isDouble, Value.isString, Value.asDouble]⟩
    · exact ⟨x * y, by simp [execOp, binaryOp, Value.isInt, Value.isDouble, Value.isString, Value.asDouble]⟩
    · exact ⟨x / y, by simp [execOp, binaryOp, Value.isInt, Value.isDouble, Value.isString, Value.asDouble]⟩

/-- Witness for C4: `Int(3) + Double(2)` (Int below, Double on top)
faults with the documented message. -/
theorem numeric_binary_op_typing_witness :
    execOp .opAdd ⟨⟨[11], [], [6]⟩, 1, [.vdouble 2, .vint 3], [], []⟩ =
      some (.err ⟨⟨[11], [], [6]⟩, 1, [], [], []⟩ 6
        "Operands must be either both integer or both double numbers.") :=
  (numeric_binary_op_typing .opAdd (Or.inl rfl) (.vint 3) (.vdouble 2)
    ⟨[11], [], [6]⟩ 1 [] [] []).1 (Or.inl ⟨rfl, rfl⟩)

/-- C10: `OP_ADD` concatenates only when both operands are strings; with
exactly one string operand it falls into `BINARY_OP` and raises the
numeric TypeMismatch message, not a string-specific diagnostic. -/
theorem add_single_string_is_numeric_mismatch (a b : Value) (c : Chunk)
    (ip : Nat) (rest : List Value) (g : Globals) (out : List Value) :
    (a.isString ≠ b.isString →
      execOp .opAdd ⟨c, ip, b :: a :: rest, g, out⟩ =
        some (.err ⟨c, ip, [], g, out⟩ (c.lines.getD (ip - 1) 0)
          "Operands must be either both integer or both double numbers.")) ∧
    (∀ sa sb, a = .vstr sa → b = .vstr sb →
      execOp .opAdd ⟨c, ip, b :: a :: rest, g, out⟩ =
        some (.ok ⟨c, ip, .vstr (sa ++ sb) :: rest, g, out⟩)) := by
  constructor
  · intro hne
    cases a <;> cases b <;>
      simp [Value.isString] at hne <;>
      simp [execOp, binaryOp, concatenate, runtimeError, Value.isInt,
        Value.isDouble, Value.isString]
  · rintro sa sb rfl rfl
    simp [execOp, concatenate, Value.isString]

/-- Witness for C10: `Int(1) + String("s")` faults with the numeric
message, not a concatenation. -/
theorem add_single_string_is_numeric_mismatch_witness :
    execOp .opAdd ⟨⟨[11], [], [9]⟩, 1, [.vstr "s", .vint 1], [], []⟩ =
      some (.err ⟨⟨[11], [], [9]⟩, 1, [], [], []⟩ 9
        "Operands must be either both integer or both double numbers.") :=
  (add_single_string_is_numeric_mismatch (.vint 1) (.vstr "s")
    ⟨[11], [], [9]⟩ 1 [] [] []).1 (by decide)

/-- Total encoded size of an instruction: the opcode byte plus its
operand bytes (one constant-pool index byte for `CONSTANT` and the three
global-variable opcodes, none otherwise). -/
def opSize : Op → Nat
  | .opConstant | .opGetGlobal | .opDefineGlobal | .opSetGlobal => 2
  | _ => 1

/-- Inversion of a successful `readConstant`: the cursor advanced one
byte and that byte indexes the constant pool. -/
theorem readConstant_some (s : VMState) (v : Value) (s' : VMState)
    (h : readConstant s = some (v, s')) :
    s' = { s with ip := s.ip + 1 } ∧
    ∃ b, s.chunk.code.get? s.ip = some b ∧
      s.chunk.constants.get? b = some v := by
  unfold readConstant readByte at h
  rcases hb : s.chunk.code.get? s.ip with _ | b
  · rw [hb] at h; cases h
  · rw [hb] at h
    simp only at h
    rcases hc : s.chunk.constants.get? b with _ | w
    · rw [hc] at h; cases h
    · rw [hc] at h
      cases h
      exact ⟨rfl, b, rfl, hc⟩

/-- Inversion of a successful `readString`: `readConstant` succeeded and
produced a string constant. -/
theorem readString_some (s : VMState) (name : String) (s' : VMState)
    (h : readString s = some (name, s')) :
    s' = { s with ip := s.ip + 1 } ∧
    ∃ b, s.chunk.code.get? s.ip = some b ∧
      s.chunk.constants.get? b = some (.vstr name) := by
  unfold readString at h
  rcases hrc : readConstant s with _ | ⟨v, s₂⟩
  · rw [hrc] at h; cases h
  · rw [hrc] at h
    cases v with
    | vstr t =>
      cases h
      exact readConstant_some s (.vstr name) s' hrc
    | vnil => cases h
    | vbool b => cases h
    | vint n => cases h
    | vdouble x => cases h

/-- Number of operand bytes an opcode consumes after its opcode byte. -/
def operandCount : Op → Nat
  | .opConstant | .opGetGlobal | .opDefineGlobal | .opSetGlobal => 1
  | _ => 0

/-- Inversion of a `BINARY_OP` runtime error: the fault leaves the stack
reset and reports the line of the byte just before the cursor. -/
theorem binaryOp_err_inv (s : VMState) (iop : Int → Int → Int)
    (dop : Rat → Rat → Rat) (st : VMState) (line : Int) (msg : String)
    (h : binaryOp s iop dop = some (.err st line msg)) :
    st = { s with stack := [] } ∧ line = s.chunk.lines.getD (s.ip - 1) 0 := by
  unfold binaryOp at h
  rcases hs : s.stack with _ | ⟨b, tl⟩
  · rw [hs] at h; simp at h
  · rcases tl with _ | ⟨a, rest⟩
    · rw [hs] at h; simp at h
    · rw [hs] at h
      dsimp only at h
      by_cases h1 : (b.isInt && a.isInt) = true
      · rw [if_pos h1] at h; simp at h
      · rw [if_neg h1] at h
        by_cases h2 : (b.isDouble && a.isDouble) = true
        · rw [if_pos h2] at h; simp at h
        · rw [if_neg h2] at h
          unfold runtimeError at h
          cases h
          exact ⟨rfl, rfl⟩

/-- `BINARY_OP_COMPARISON` has no error path. -/
theorem binaryOpComparison_no_err (s : VMState) (cmp : Bool → Bool → Bool)
    (st : VMState) (line : Int) (msg : String) :
    binaryOpComparison s cmp ≠ some (.err st line msg) := by
  unfold binaryOpComparison
  split <;> simp

/-- `concatenate` has no error path. -/
theorem concatenate_no_err (s : VMState) (st : VMState) (line : Int)
    (msg : String) : concatenate s ≠ some (.err st line msg) := by
  unfold concatenate
  split <;> simp

/-- Inversion of any runtime error raised by one opcode's execution (the
state's cursor already points past the opcode byte): the stack is reset
to empty, the chunk is untouched, the cursor advanced over exactly the
opcode's operand bytes, and the reported line is the line-table entry of
the last byte consumed. -/
theorem execOp_err_inv (op : Op) (s st : VMState) (line : Int) (msg : String)
    (h : execOp op s = some (.err st line msg)) :
    st.stack = [] ∧ st.chunk = s.chunk ∧ st.ip = s.ip + operandCount op ∧
    line = s.chunk.lines.getD (s.ip + operandCount op - 1) 0 := by
  cases op with
  | opConstant =>
    unfold execOp at h
    rcases hrc : readConstant s with _ | ⟨v, s'⟩ <;> rw [hrc] at h
    · cases h
    · simp at h
  | opNil => unfold execOp at h; simp at h
  | opTrue => unfold execOp at h; simp at h
  | opFalse => unfold execOp at h; simp at h
  | opPop =>
    unfold execOp at h
    rcases hs : s.stack with _ | ⟨v, tl⟩ <;> rw [hs] at h <;> simp at h
  | opGetGlobal =>
    unfold execOp at h
    rcases hrs : readString s with _ | ⟨name, s'⟩ <;> rw [hrs] at h
    · cases h
    · dsimp only at h
      obtain ⟨hs', b, hb, hc⟩ := readString_some s name s' hrs
      rcases hg : tableGet s'.globals name with _ | v <;> rw [hg] at h
      · unfold runtimeError at h
        cases h
        subst hs'
        exact ⟨rfl, rfl, rfl, by simp [operandCount]⟩
      · simp at h
  | opDefineGlobal =>
    unfold execOp at h
    rcases hrs : readString s with _ | ⟨name, s'⟩ <;> rw [hrs] at h
    · cases h
    · dsimp only at h
      rcases hstk : s'.stack with _ | ⟨v, tl⟩ <;> rw [hstk] at h <;> simp at h
  | opSetGlobal =>
    unfold execOp at h
    rcases hrs : readString s with _ | ⟨name, s'⟩ <;> rw [hrs] at h
    · cases h
    · dsimp only at h
      obtain ⟨hs', b, hb, hc⟩ := readString_some s name s' hrs
      rcases hstk : s'.stack with _ | ⟨v, tl⟩ <;> rw [hstk] at h
      · cases h
      · dsimp only at h
        by_cases hnew : (tableSet s'.globals name v).2 = true
        · rw [if_pos hnew] at h
          unfold runtimeError at h
          cases h
          subst hs'
          exact ⟨rfl, rfl, rfl, by simp [operandCount]⟩
        · rw [if_neg hnew] at h
          simp at h
  | opEqual =>
    unfold execOp at h
    rcases hs : s.stack with _ | ⟨b, _ | ⟨a, rest⟩⟩ <;> rw [hs] at h <;>
      simp at h
  | opGreater => exact absurd h (binaryOpComparison_no_err s boolGt st line msg)
  | opLess => exact absurd h (binaryOpComparison_no_err s boolLt st line msg)
  | opAdd =>
    unfold execOp at h
    rcases hs : s.stack with _ | ⟨b, _ | ⟨a, rest⟩⟩ <;> rw [hs] at h
    · cases h
    · cases h
    · dsimp only at h
      by_cases hstr : (b.isString && a.isString) = true
      · rw [if_pos hstr] at h
        exact absurd h (concatenate_no_err s st line msg)
      · rw [if_neg hstr] at h
        obtain ⟨h1, h2⟩ := binaryOp_err_inv s (· + ·) (· + ·) st line msg h
        subst h1
        exact ⟨rfl, rfl, rfl, by simpa [operandCount] using h2⟩
  | opSubtract =>
    unfold execOp at h
    obtain ⟨h1, h2⟩ := binaryOp_err_inv s (· - ·) (· - ·) st line msg h
    subst h1
    exact ⟨rfl, rfl, rfl, by simpa [operandCount] using h2⟩
  | opMultiply =>
    unfold execOp at h
    obtain ⟨h1, h2⟩ := binaryOp_err_inv s (· * ·) (· * ·) st line msg h
    subst h1
    exact ⟨rfl, rfl, rfl, by simpa [operandCount] using h2⟩
  | opDivide =>
    unfold execOp at h
    obtain ⟨h1, h2⟩ := binaryOp_err_inv s Int.tdiv (· / ·) st line msg h
    subst h1
    exact ⟨rfl, rfl, rfl, by simpa [operandCount] using h2⟩
  | opNot =>
    unfold execOp at h
    rcases hs : s.stack with _ | ⟨v, tl⟩ <;> rw [hs] at h <;> simp at h
  | opNegate =>
    unfold execOp at h
    rcases hs : s.stack with _ | ⟨v, tl⟩ <;> rw [hs] at h
    · cases h
    · dsimp only at h
      by_cases hc : (!v.isInt || !v.isDouble) = true
      · rw [if_pos hc] at h
        unfold runtimeError at h
        cases h
        exact ⟨rfl, rfl, rfl, by simp [operandCount]⟩
      · rw [if_neg hc] at h
        by_cases hint : v.isInt = true
        · rw [if_pos hint] at h; simp at h
        · rw [if_neg hint] at h; simp at h
  | opPrint =>
    unfold execOp at h
    rcases hs : s.stack with _ | ⟨v, tl⟩ <;> rw [hs] at h <;> simp at h
  | opReturn => unfold execOp at h; simp at h

/-- `opSize` is one opcode byte plus the operand bytes. -/
theorem opSize_eq (op : Op) : opSize op = 1 + operandCount op := by
  cases op <;> rfl

/-- Inversion of a runtime error raised by one loop iteration: an opcode
was fetched and decoded, the stack was reset, the cursor sits past the
whole faulting instruction, and the reported line is the line-table entry
of the instruction's last byte. -/
theorem step_err_inv (s st : VMState) (line : Int) (msg : String)
    (h : step s = some (.err st line msg)) :
    ∃ b op, s.chunk.code.get? s.ip = some b ∧ decodeOp b = some op ∧
      st.stack = [] ∧ st.chunk = s.chunk ∧ st.ip = s.ip + opSize op ∧
      line = s.chunk.lines.getD (s.ip + opSize op - 1) 0 := by
  unfold step at h
  rcases hb : s.chunk.code.get? s.ip with _ | b <;> rw [hb] at h
  · cases h
  · dsimp only at h
    rcases hop : decodeOp b with _ | op <;> rw [hop] at h
    · simp at h
    · obtain ⟨e1, e2, e3, e4⟩ :=
        execOp_err_inv op { s with ip := s.ip + 1 } st line msg h
      have hidx : s.ip + 1 + operandCount op = s.ip + opSize op := by
        rw [opSize_eq]; omega
      refine ⟨b, op, rfl, hop, e1, by simpa using e2, ?_, ?_⟩
      · simpa [hidx] using e3
      · simpa [hidx] using e4

/-- C2 (amended): when a loop iteration raises a runtime error, the
reported line is the line-table entry at `offset-of-last-byte-consumed`,
i.e. at the faulting instruction's offset plus its operand bytes — the
instruction's own offset for zero-operand opcodes, but the trailing
operand byte's offset for `GET_GLOBAL`/`SET_GLOBAL`. -/
theorem fault_reports_last_consumed_byte_line (s st : VMState) (line : Int)
    (msg : String) (h : step s = some (.err st line msg)) :
    ∃ b op, s.chunk.code.get? s.ip = some b ∧ decodeOp b = some op ∧
      st.ip = s.ip + opSize op ∧
      line = s.chunk.lines.getD (s.ip + opSize op - 1) 0 := by
  obtain ⟨b, op, hb, hop, _, _, h3, h4⟩ := step_err_inv s st line msg h
  exact ⟨b, op, hb, hop, h3, h4⟩

/-- Witness for C2's amended theorem: the `GET_GLOBAL` fault at offset 0
reports the line-table entry of offset 1, its operand byte. -/
theorem fault_reports_last_consumed_byte_line_witness :
    ∃ b op,
      (⟨⟨[5, 0], [.vstr "x"], [1, 2]⟩, 0, [], [], []⟩ : VMState).chunk.code.get?
        (⟨⟨[5, 0], [.vstr "x"], [1, 2]⟩, 0, [], [], []⟩ : VMState).ip = some b ∧
      decodeOp b = some op ∧
      (⟨⟨[5, 0], [.vstr "x"], [1, 2]⟩, 2, [], [], []⟩ : VMState).ip = 0 + opSize op ∧
      (2 : Int) =
        (⟨⟨[5, 0], [.vstr "x"], [1, 2]⟩, 0, [], [], []⟩ : VMState).chunk.lines.getD
          (0 + opSize op - 1) 0 :=
  fault_reports_last_consumed_byte_line
    ⟨⟨[5, 0], [.vstr "x"], [1, 2]⟩, 0, [], [], []⟩
    ⟨⟨[5, 0], [.vstr "x"], [1, 2]⟩, 2, [], [], []⟩ 2 "Undefined variable 'x'."
    (by decide)

/-- C6: whenever the interpretation loop ends with `RuntimeError`, the
final state's operand stack is empty — `runtimeError` unconditionally
calls `resetStack` before `run` returns, and the loop never resumes after
an error. -/
theorem runtime_error_resets_stack (fuel : Nat) (s st : VMState) (line : Int)
    (msg : String) (h : runVM fuel s = some (.rtErr st line msg)) :
    st.stack = [] := by
  induction fuel generalizing s with
  | zero => cases h
  | succ n ih =>
    unfold runVM at h
    rcases hst : step s with _ | r <;> rw [hst] at h
    · cases h
    · cases r with
      | ok s' => exact ih s' h
      | done s' => simp at h
      | err s' l m =>
        cases h
        obtain ⟨_, _, _, _, e1, _⟩ := step_err_inv s st line msg hst
        exact e1

/-- Witness for C6: a mixed-type `ADD` faults and the returned state's
stack is empty. -/
theorem runtime_error_resets_stack_witness :
    (⟨⟨[11], [], [1]⟩, 1, [], [], []⟩ : VMState).stack = [] :=
  runtime_error_resets_stack 1
    ⟨⟨[11], [], [1]⟩, 0, [.vdouble 2, .vint 3], [], []⟩
    ⟨⟨[11], [], [1]⟩, 1, [], [], []⟩ 1
    "Operands must be either both integer or both double numbers."
    (by decide)

/-- The §4.1 table's stack-effect delta for each opcode. -/
def stackDelta : Op → Int
  | .opConstant | .opNil | .opTrue | .opFalse | .opGetGlobal => 1
  | .opSetGlobal | .opNot | .opNegate | .opReturn => 0
  | _ => -1

/-- `OP_NEGATE`'s guard `!IS_INT(v) || !IS_DOUBLE(v)` holds for every
value: no value is both an Int and a Double. -/
theorem negate_guard_always_true (v : Value) :
    (!v.isInt || !v.isDouble) = true := by
  cases v <;> rfl

/-- Inversion of a successful `BINARY_OP`: two operands were consumed and
one result pushed. -/
theorem binaryOp_ok_inv (s : VMState) (iop : Int → Int → Int)
    (dop : Rat → Rat → Rat) (s' : VMState)
    (h : binaryOp s iop dop = some (.ok s')) :
    ∃ b a rest v, s.stack = b :: a :: rest ∧
      s' = { s with stack := v :: rest } := by
  unfold binaryOp at h
  rcases hs : s.stack with _ | ⟨b, _ | ⟨a, rest⟩⟩ <;> rw [hs] at h
  · cases h
  · cases h
  · dsimp only at h
    by_cases h1 : (b.isInt && a.isInt) = true
    · rw [if_pos h1] at h
      cases h
      exact ⟨b, a, rest, _, rfl, rfl⟩
    · rw [if_neg h1] at h
      by_cases h2 : (b.isDouble && a.isDouble) = true
      · rw [if_pos h2] at h
        cases h
        exact ⟨b, a, rest, _, rfl, rfl⟩
      · rw [if_neg h2] at h
        unfold runtimeError at h
        cases h

/-- Inversion of a successful `concatenate`: two strings were consumed
and their concatenation pushed. -/
theorem concatenate_ok_inv (s s' : VMState)
    (h : concatenate s = some (.ok s')) :
    ∃ sa sb rest, s.stack = .vstr sb :: .vstr sa :: rest ∧
      s' = { s with stack := .vstr (sa ++ sb) :: rest } := by
  unfold concatenate at h
  rcases hs : s.stack with _ | ⟨b, _ | ⟨a, rest⟩⟩ <;> rw [hs] at h
  · cases h
  · cases b <;> cases h
  · cases b <;> cases a <;> try cases h
    exact ⟨_, _, rest, rfl, rfl⟩

/-- `BINARY_OP` never terminates the loop. -/
theorem binaryOp_no_done (s : VMState) (iop : Int → Int → Int)
    (dop : Rat → Rat → Rat) (st : VMState) :
    binaryOp s iop dop ≠ some (.done st) := by
  unfold binaryOp
  split
  · split
    · simp
    · split
      · simp
      · simp [runtimeError]
  · simp

/-- `BINARY_OP_COMPARISON` never terminates the loop. -/
theorem binaryOpComparison_no_done (s : VMState) (cmp : Bool → Bool → Bool)
    (st : VMState) : binaryOpComparison s cmp ≠ some (.done st) := by
  unfold binaryOpComparison
  split <;> simp

/-- `concatenate` never terminates the loop. -/
theorem concatenate_no_done (s st : VMState) :
    concatenate s ≠ some (.done st) := by
  unfold concatenate
  split <;> simp

/-- C8: every successful (non-erroring) execution of a decoded opcode
changes the operand-stack depth by exactly the §4.1 table's delta
(`NEGATE`'s case is vacuous: its broken guard admits no successful
execution). -/
theorem opcode_stack_balance (s s' : VMState) (b : Nat) (op : Op)
    (hb : s.chunk.code.get? s.ip = some b) (hop : decodeOp b = some op)
    (h : step s = some (.ok s') ∨ step s = some (.done s')) :
    (s'.stack.length : Int) = s.stack.length + stackDelta op := by
  rw [step_eq_execOp s b op hb hop] at h
  cases op with
  | opConstant =>
    unfold execOp at h
    rcases hrc : readConstant { s with ip := s.ip + 1 } with _ | ⟨v, s₂⟩ <;>
      rw [hrc] at h
    · rcases h with h | h <;> cases h
    · dsimp only at h
      obtain ⟨hs₂, _, _, _⟩ := readConstant_some _ v s₂ hrc
      rcases h with h | h <;> cases h
      subst hs₂
      simp [stackDelta]
  | opNil =>
    unfold execOp at h
    rcases h with h | h <;> cases h
    simp [stackDelta]
  | opTrue =>
    unfold execOp at h
    rcases h with h | h <;> cases h
    simp [stackDelta]
  | opFalse =>
    unfold execOp at h
    rcases h with h | h <;> cases h
    simp [stackDelta]
  | opPop =>
    unfold execOp at h
    dsimp only at h
    rcases hs : s.stack with _ | ⟨v, tl⟩ <;> rw [hs] at h
    · rcases h with h | h <;> cases h
    · dsimp only at h
      rcases h with h | h <;> cases h
      simp [stackDelta, hs]
  | opGetGlobal =>
    unfold execOp at h
    rcases hrs : readString { s with ip := s.ip + 1 } with _ | ⟨name, s₂⟩ <;>
      rw [hrs] at h
    · rcases h with h | h <;> cases h
    · dsimp only at h
      obtain ⟨hs₂, _, _, _⟩ := readString_some _ name s₂ hrs
      rcases hg : tableGet s₂.globals name with _ | v <;> rw [hg] at h
      · unfold runtimeError at h
        rcases h with h | h <;> cases h
      · rcases h with h | h <;> cases h
        subst hs₂
        simp [stackDelta]
  | opDefineGlobal =>
    unfold execOp at h
    rcases hrs : readString { s with ip := s.ip + 1 } with _ | ⟨name, s₂⟩ <;>
      rw [hrs] at h
    · rcases h with h | h <;> cases h
    · dsimp only at h
      obtain ⟨hs₂, _, _, _⟩ := readString_some _ name s₂ hrs
      rcases hstk : s₂.stack with _ | ⟨v, tl⟩ <;> rw [hstk] at h
      · rcases h with h | h <;> cases h
      · dsimp only at h
        rcases h with h | h <;> cases h
        subst hs₂
        have hstk' : s.stack = v :: tl := by simpa using hstk
        simp [stackDelta, hstk']
  | opSetGlobal =>
    unfold execOp at h
    rcases hrs : readString { s with ip := s.ip + 1 } with _ | ⟨name, s₂⟩ <;>
      rw [hrs] at h
    · rcases h with h | h <;> cases h
    · dsimp only at h
      obtain ⟨hs₂, _, _, _⟩ := readString_some _ name s₂ hrs
      rcases hstk : s₂.stack with _ | ⟨v, tl⟩ <;> rw [hstk] at h
      · rcases h with h | h <;> cases h
      · dsimp only at h
        by_cases hnew : (tableSet s₂.globals name v).2 = true
        · rw [if_pos hnew] at h
          unfold runtimeError at h
          rcases h with h | h <;> cases h
        · rw [if_neg hnew] at h
          rcases h with h | h <;> cases h
          subst hs₂
          have hstk' : s.stack = v :: tl := by simpa using hstk
          simp [stackDelta, hstk']
  | opEqual =>
    unfold execOp at h
    dsimp only at h
    rcases hs : s.stack with _ | ⟨x, _ | ⟨y, rest⟩⟩ <;> rw [hs] at h
    · rcases h with h | h <;> cases h
    · rcases h with h | h <;> cases h
    · dsimp only at h
      rcases h with h | h <;> cases h
      simp [stackDelta, hs]
  | opGreater =>
    unfold execOp binaryOpComparison at h
    dsimp only at h
    rcases hs : s.stack with _ | ⟨x, _ | ⟨y, rest⟩⟩ <;> rw [hs] at h
    · rcases h with h | h <;> cases h
    · rcases h with h | h <;> cases h
    · dsimp only at h
      rcases h with h | h <;> cases h
      simp [stackDelta, hs]
  | opLess =>
    unfold execOp binaryOpComparison at h
    dsimp only at h
    rcases hs : s.stack with _ | ⟨x, _ | ⟨y, rest⟩⟩ <;> rw [hs] at h
    · rcases h with h | h <;> cases h
    · rcases h with h | h <;> cases h
    · dsimp only at h
      rcases h with h | h <;> cases h
      simp [stackDelta, hs]
  | opAdd =>
    unfold execOp at h
    dsimp only at h
    rcases hs : s.stack with _ | ⟨x, _ | ⟨y, rest⟩⟩ <;> rw [hs] at h
    · rcases h with h | h <;> cases h
    · rcases h with h | h <;> cases h
    · dsimp only at h
      by_cases hstr : (x.isString && y.isString) = true
      · rw [if_pos hstr] at h
        rcases h with h | h
        · obtain ⟨sa, sb, rest', h1, h2⟩ := concatenate_ok_inv _ s' h
          obtain ⟨hx, hy, hrest⟩ :
              x = Value.vstr sb ∧ y = Value.vstr sa ∧ rest = rest' := by
            simpa using h1
          subst h2
          simp [stackDelta, hrest]
        · exact absurd h (concatenate_no_done _ s')
      · rw [if_neg hstr] at h
        rcases h with h | h
        · obtain ⟨b', a', rest', v, h1, h2⟩ :=
            binaryOp_ok_inv _ (· + ·) (· + ·) s' h
          obtain ⟨hx, hy, hrest⟩ : x = b' ∧ y = a' ∧ rest = rest' := by
            simpa using h1
          subst h2
          simp [stackDelta, hrest]
        · exact absurd h (binaryOp_no_done _ _ _ s')
  | opSubtract =>
    unfold execOp at h
    rcases h with h | h
    · obtain ⟨b', a', rest', v, h1, h2⟩ :=
        binaryOp_ok_inv { s with ip := s.ip + 1 } (· - ·) (· - ·) s' h
      have hstk : s.stack = b' :: a' :: rest' := by simpa using h1
      subst h2
      simp [stackDelta, hstk]
    · exact absurd h (binaryOp_no_done _ _ _ s')
  | opMultiply =>
    unfold execOp at h
    rcases h with h | h
    · obtain ⟨b', a', rest', v, h1, h2⟩ :=
        binaryOp_ok_inv { s with ip := s.ip + 1 } (· * ·) (· * ·) s' h
      have hstk : s.stack = b' :: a' :: rest' := by simpa using h1
      subst h2
      simp [stackDelta, hstk]
    · exact absurd h (binaryOp_no_done _ _ _ s')
  | opDivide =>
    unfold execOp at h
    rcases h with h | h
    · obtain ⟨b', a', rest', v, h1, h2⟩ :=
        binaryOp_ok_inv { s with ip := s.ip + 1 } Int.tdiv (· / ·) s' h
      have hstk : s.stack = b' :: a' :: rest' := by simpa using h1
      subst h2
      simp [stackDelta, hstk]
    · exact absurd h (binaryOp_no_done _ _ _ s')
  | opNot =>
    unfold execOp at h
    dsimp only at h
    rcases hs : s.stack with _ | ⟨v, tl⟩ <;> rw [hs] at h
    · rcases h with h | h <;> cases h
    · dsimp only at h
      rcases h with h | h <;> cases h
      simp [stackDelta, hs]
  | opNegate =>
    unfold execOp at h
    dsimp only at h
    rcases hs : s.stack with _ | ⟨v, tl⟩ <;> rw [hs] at h
    · rcases h with h | h <;> cases h
    · dsimp only at h
      rw [if_pos (negate_guard_always_true v)] at h
      unfold runtimeError at h
      rcases h with h | h <;> cases h
  | opPrint =>
    unfold execOp at h
    dsimp only at h
    rcases hs : s.stack with _ | ⟨v, tl⟩ <;> rw [hs] at h
    · rcases h with h | h <;> cases h
    · dsimp only at h
      rcases h with h | h <;> cases h
      simp [stackDelta, hs]
  | opReturn =>
    unfold execOp at h
    rcases h with h | h <;> cases h
    simp [stackDelta]

/-- Witness for C8: `OP_NIL` grows the stack by exactly one. -/
theorem opcode_stack_balance_witness :
    ((⟨⟨[1], [], [1]⟩, 1, [.vnil], [], []⟩ : VMState).stack.length : Int) =
      (⟨⟨[1], [], [1]⟩, 0, [], [], []⟩ : VMState).stack.length +
        stackDelta .opNil :=
  opcode_stack_balance ⟨⟨[1], [], [1]⟩, 0, [], [], []⟩
    ⟨⟨[1], [], [1]⟩, 1, [.vnil], [], []⟩ 1 .opNil (by decide) (by decide)
    (Or.inl (by decide))
